import Mathlib

/-!
# Calculator with accumulated history

Shallow embedding of the `Calculator` class of `src/main.cpp` and of the calls made by the
driver `src/src/main.cpp`.

* The C++ type `double` is a type parameter `D` carrying the arithmetic the methods use
  (`+`, `-`, `*`, and `/`, `== 0` for the divide of the extended variant).  Every generic
  theorem therefore holds for whatever arithmetic the platform gives `double`.  Where a claim
  names decimal values, `D` is `F64`: IEEE 754 binary64 with rounding to nearest, ties to even.
* `std::vector<double> history` is a `List D`; `push_back` appends at the end.  Allocation
  failure of `push_back` is outside the model.
* A mutating method is a function from the state before the call to the pair
  (returned value, state after the call).  A `const` method is a function of the state only.
* `std::cout` is the list of the lines written so far; every statement of the source that ends
  in `std::endl` writes one line.
-/

namespace DemoCI

/-- The class `Calculator` of `src/main.cpp`: its only member is `history`. -/
structure Calculator (D : Type) where
  history : List D
deriving DecidableEq

namespace Calculator

variable {D : Type}

/-- Default construction `Calculator calc;`: the vector starts empty. -/
def new : Calculator D :=
  ⟨[]⟩

/-- Method `double add(double a, double b)` of `src/main.cpp`, lines 10-14. -/
def add [Add D] (c : Calculator D) (a b : D) : D × Calculator D :=
  let result := a + b
  (result, ⟨c.history ++ [result]⟩)

/-- Method `double multiply(double a, double b)` of `src/main.cpp`, lines 16-20. -/
def multiply [Mul D] (c : Calculator D) (a b : D) : D × Calculator D :=
  let result := a * b
  (result, ⟨c.history ++ [result]⟩)

/-- Method `double subtract(double a, double b)` of `src/main.cpp`, lines 22-26. -/
def subtract [Sub D] (c : Calculator D) (a b : D) : D × Calculator D :=
  let result := a - b
  (result, ⟨c.history ++ [result]⟩)

/-- Loop `for (size_t i = 0; i < history.size(); ++i)` of `printHistory`, started at index `i`
with `cout` the lines written so far; `fmt` is the stream formatting of a `double`. -/
def printHistoryLoop (fmt : D → String) (history : List D) (i : Nat) (cout : List String) :
    List String :=
  if h : i < history.length then
    printHistoryLoop fmt history (i + 1)
      (cout ++ ["  " ++ toString (i + 1) ++ ": " ++ fmt (history.get ⟨i, h⟩)])
  else
    cout
termination_by history.length - i

/-- Method `void printHistory() const` of `src/main.cpp`, lines 28-33: the lines on `cout`
after the call. -/
def printHistory (fmt : D → String) (c : Calculator D) (cout : List String) : List String :=
  printHistoryLoop fmt c.history 0 (cout ++ ["Calculation History:"])

/-- Method `size_t getHistorySize() const` of `src/main.cpp`, lines 35-37. -/
def getHistorySize (c : Calculator D) : Nat :=
  c.history.length

end Calculator

/-- One call of a mutating method of `Calculator` with its arguments. -/
inductive Op (D : Type) where
  | add (a b : D)
  | multiply (a b : D)
  | subtract (a b : D)
deriving DecidableEq

/-- One call of any method of the `Calculator` of `src/main.cpp`. -/
inductive Call (D : Type) where
  | arith (op : Op D)
  | printHistory
  | getHistorySize
deriving DecidableEq

/-- What a call hands back to its caller: a returned `double`, a returned count, or (for
`printHistory`, which returns `void`) the lines it wrote. -/
inductive Output (D : Type) where
  | value (r : D)
  | size (n : Nat)
  | lines (l : List String)
deriving DecidableEq

namespace Calculator

variable {D : Type} [Add D] [Sub D] [Mul D]

/-- Dispatch of one arithmetic call to the method it names. -/
def apply (c : Calculator D) : Op D → D × Calculator D
  | .add a b => c.add a b
  | .multiply a b => c.multiply a b
  | .subtract a b => c.subtract a b

/-- A sequence of arithmetic calls made one after the other on the same object: the values
returned, in call order, and the final state. -/
def run (c : Calculator D) : List (Op D) → List D × Calculator D
  | [] => ([], c)
  | op :: ops =>
    let step := c.apply op
    let rest := run step.2 ops
    (step.1 :: rest.1, rest.2)

/-- One call of any method; the `const` methods hand the object back as they received it. -/
def call (fmt : D → String) (c : Calculator D) : Call D → Output D × Calculator D
  | .arith op => (Output.value (c.apply op).1, (c.apply op).2)
  | .printHistory => (Output.lines (c.printHistory fmt []), c)
  | .getHistorySize => (Output.size c.getHistorySize, c)

/-- A sequence of calls of any methods on the same object: outputs in call order and the
final state. -/
def calls (fmt : D → String) (c : Calculator D) : List (Call D) → List (Output D) × Calculator D
  | [] => ([], c)
  | k :: ks =>
    let step := c.call fmt k
    let rest := calls fmt step.2 ks
    (step.1 :: rest.1, rest.2)

end Calculator

/-- The value an arithmetic call computes from its arguments alone. -/
def Op.value {D : Type} [Add D] [Sub D] [Mul D] : Op D → D
  | .add a b => a + b
  | .multiply a b => a * b
  | .subtract a b => a - b

/-- The single error kind a call can fail with. -/
inductive CalcError where
  | InvalidArgument
deriving DecidableEq

namespace Calculator

variable {D : Type}

/-- Modelled from the spec: the method `divide` of the extended `Calculator` (declared in
`Calculator.h`, which is not part of the sources; `src/src/main.cpp` only calls it).
"`divide(a, b) -> a / b`, appended to history only on success. Fails with an
`InvalidArgument` error when `b == 0`, and in that failure case nothing is appended to
history."  The comparison `b == 0` is the one `D` carries. -/
def divide [Div D] [BEq D] [OfNat D 0] (c : Calculator D) (a b : D) :
    Except CalcError D × Calculator D :=
  if b == 0 then
    (Except.error CalcError.InvalidArgument, c)
  else
    let result := a / b
    (Except.ok result, ⟨c.history ++ [result]⟩)

/-- Modelled from the spec: the method `clearHistory` of the extended `Calculator` (declared
in `Calculator.h`, which is not part of the sources; `src/src/main.cpp` only calls it).
"`clearHistory()`: resets history to empty; no return value". -/
def clearHistory (_c : Calculator D) : Calculator D :=
  ⟨[]⟩

end Calculator

/-- The arithmetic calls among a sequence of calls, in order. -/
def Call.arithOps {D : Type} : List (Call D) → List (Op D)
  | [] => []
  | .arith op :: ks => op :: Call.arithOps ks
  | .printHistory :: ks => Call.arithOps ks
  | .getHistorySize :: ks => Call.arithOps ks

/-- The returned `double`s among a sequence of outputs, in order. -/
def Output.values {D : Type} : List (Output D) → List D
  | [] => []
  | .value r :: os => r :: Output.values os
  | .size _ :: os => Output.values os
  | .lines _ :: os => Output.values os

namespace MathUtils

/-- The trial-division loop of `isPrime`: candidate divisors `d, d + 1, ...` are tried for as
long as `d * d <= n`; a candidate that divides `n` ends the loop with `false`, and running out
of candidates ends it with `true`. -/
def trialDivision (n d : Nat) : Bool :=
  if d * d ≤ n then
    if n % d = 0 then false else trialDivision n (d + 1)
  else
    true
termination_by n + 1 - d * d
decreasing_by
  simp_wf
  have hsq : (d + 1) * (d + 1) = d * d + 2 * d + 1 := by ring
  omega

/-- Modelled from the spec: the function `MathUtils::isPrime` (declared in `MathUtils.h`, which
is not part of the sources; `src/src/main.cpp` only calls it).  "`isPrime(n: integer) ->
boolean`. Policy: numbers less than 2 are not prime; trial division up to the integer square
root of `n` is sufficient and is the expected algorithmic complexity (O(√n))". -/
def isPrime (n : Int) : Bool :=
  if n < 2 then false else trialDivision n.toNat 2

end MathUtils

/-- The values of the C++ type `double` as IEEE 754 binary64: not-a-number, the two
infinities, and the finite values `(-1)^neg * mant * 2^exp`.  Finite values are kept in the
form of the encoding: `mant < 2^53`, `-1074 <= exp <= 971`, and `2^52 <= mant` unless
`exp = -1074` (subnormals and the two zeros). -/
inductive F64 where
  | nan
  | inf (neg : Bool)
  | fin (neg : Bool) (mant : Nat) (exp : Int)
deriving DecidableEq

namespace F64

/-- Number of binary digits of `n`, counted by at most `fuel` halvings. -/
def bitsAux : Nat → Nat → Nat
  | 0, _ => 0
  | fuel + 1, n => if n = 0 then 0 else bitsAux fuel (n / 2) + 1

/-- Number of binary digits of `n` (0 for 0). -/
def bits (n : Nat) : Nat :=
  bitsAux n n

/-- The integer `k` with `2^k <= n / d < 2^(k + 1)`, for positive `n` and `d`. -/
def ilog2 (n d : Nat) : Int :=
  let k : Int := (bits n : Int) - (bits d : Int)
  if d * 2 ^ k.toNat ≤ n * 2 ^ (-k).toNat then k else k - 1

/-- Rounding of the default mode (to nearest, ties to even): the binary64 value nearest to
the rational `(-1)^neg * n / d`, for `d > 0`; overflow gives an infinity. -/
def roundNearestEven (neg : Bool) (n d : Nat) : F64 :=
  if n = 0 then fin neg 0 (-1074)
  else
    let e : Int := max (ilog2 n d - 52) (-1074)
    let num := n * 2 ^ (-e).toNat
    let den := d * 2 ^ e.toNat
    let q := num / den
    let r := num % den
    let m := if 2 * r < den then q else if den < 2 * r then q + 1 else q + q % 2
    if m = 2 ^ 53 then
      if e + 1 > 971 then inf neg else fin neg (2 ^ 52) (e + 1)
    else
      if e > 971 then inf neg else fin neg m e

/-- The binary64 value nearest to `(-1)^neg * n * 2^e`. -/
def roundScaled (neg : Bool) (n : Nat) (e : Int) : F64 :=
  roundNearestEven neg (n * 2 ^ e.toNat) (2 ^ (-e).toNat)

/-- Unary minus: the sign is flipped. -/
def negate : F64 → F64
  | nan => nan
  | inf s => inf (!s)
  | fin s m e => fin (!s) m e

/-- The integer `(-1)^s * m`. -/
def signed (s : Bool) (m : Nat) : Int :=
  if s then -(m : Int) else (m : Int)

/-- Binary64 addition: the exact sum, rounded. -/
def add : F64 → F64 → F64
  | nan, _ => nan
  | _, nan => nan
  | inf s, inf t => if s = t then inf s else nan
  | inf s, fin _ _ _ => inf s
  | fin _ _ _, inf t => inf t
  | fin s m e, fin t k f =>
    let g := min e f
    let x : Int := signed s (m * 2 ^ (e - g).toNat) + signed t (k * 2 ^ (f - g).toNat)
    if x = 0 then fin (s && t) 0 (-1074) else roundScaled (decide (x < 0)) x.natAbs g

/-- Binary64 subtraction: addition of the negated second operand. -/
def sub (a b : F64) : F64 :=
  add a (negate b)

/-- Binary64 multiplication: the exact product, rounded. -/
def mul : F64 → F64 → F64
  | nan, _ => nan
  | _, nan => nan
  | inf s, inf t => inf (xor s t)
  | inf s, fin t k _ => if k = 0 then nan else inf (xor s t)
  | fin s m _, inf t => if m = 0 then nan else inf (xor s t)
  | fin s m e, fin t k f => roundScaled (xor s t) (m * k) (e + f)

/-- Binary64 division: the exact quotient, rounded. -/
def div : F64 → F64 → F64
  | nan, _ => nan
  | _, nan => nan
  | inf _, inf _ => nan
  | inf s, fin t _ _ => inf (xor s t)
  | fin s _ _, inf t => fin (xor s t) 0 (-1074)
  | fin s m e, fin t k f =>
    if k = 0 then
      if m = 0 then nan else inf (xor s t)
    else
      roundNearestEven (xor s t) (m * 2 ^ (e - f).toNat) (k * 2 ^ (f - e).toNat)

/-- The comparison `==` of binary64: a not-a-number equals nothing, the two zeros are equal. -/
def beq : F64 → F64 → Bool
  | nan, _ => false
  | _, nan => false
  | inf s, inf t => s == t
  | fin s m e, fin t k f => (m == 0 && k == 0) || (s == t && m == k && e == f)
  | _, _ => false

/-- The rational number a finite binary64 value stands for, `(-1)^neg * mant * 2^exp`; 0 for
the values that are not finite. -/
def toRat : F64 → ℚ
  | fin s m e => (if s then -1 else 1) * (m : ℚ) * (2 : ℚ) ^ e
  | _ => 0

instance : Add F64 := ⟨add⟩

instance : Sub F64 := ⟨sub⟩

instance : Mul F64 := ⟨mul⟩

instance : Div F64 := ⟨div⟩

instance : BEq F64 := ⟨beq⟩

/-- A decimal literal such as `24.3` denotes the binary64 value nearest to it. -/
instance : OfScientific F64 :=
  ⟨fun m s e => if s then roundNearestEven false m (10 ^ e)
    else roundNearestEven false (m * 10 ^ e) 1⟩

/-- An integer literal denotes the binary64 value nearest to it. -/
instance (n : Nat) : OfNat F64 n := ⟨roundNearestEven false n 1⟩

end F64

/-- The object `calc` of `main` in `src/main.cpp` after the three calls of lines 46-48, with
the values `sum`, `product` and `difference` they returned. -/
def mainBasic : (F64 × F64 × F64) × Calculator F64 :=
  let calculator : Calculator F64 := Calculator.new
  let sum := calculator.add 15.5 24.3
  let product := sum.2.multiply 7.0 8.0
  let difference := product.2.subtract 100.0 25.5
  ((sum.1, product.1, difference.1), difference.2)

/-- The object `calc` of `main` in `src/src/main.cpp` after the four calls of lines 15-18,
with the outcome of the last one, `divide(84.0, 12.0)`.  The three first calls are those of
`mainBasic`. -/
def mainAdvanced : Except CalcError F64 × Calculator F64 :=
  mainBasic.2.divide 84.0 12.0

/-! ## Theorems -/

namespace Calculator

variable {D : Type}

theorem run_history [Add D] [Sub D] [Mul D] (ops : List (Op D)) (c : Calculator D) :
    (c.run ops).2.history = c.history ++ (c.run ops).1 := by
  induction ops generalizing c with
  | nil => simp [run]
  | cons op ops ih =>
    simp only [run]
    rw [ih]
    cases op <;> simp [apply, add, multiply, subtract]

theorem run_values [Add D] [Sub D] [Mul D] (ops : List (Op D)) (c : Calculator D) :
    (c.run ops).1 = ops.map Op.value := by
  induction ops generalizing c with
  | nil => simp [run]
  | cons op ops ih =>
    simp only [run, List.map_cons]
    rw [ih]
    cases op <;> simp [apply, add, multiply, subtract, Op.value]

theorem printHistoryLoop_eq (fmt : D → String) (history : List D) (n i : Nat)
    (hn : history.length - i = n) (cout : List String) :
    printHistoryLoop fmt history i cout =
      cout ++ ((history.drop i).enumFrom i).map
        (fun p => "  " ++ toString (p.1 + 1) ++ ": " ++ fmt p.2) := by
  induction n generalizing i cout with
  | zero =>
    have hle : history.length ≤ i := by omega
    rw [printHistoryLoop, dif_neg (by omega), List.drop_eq_nil_of_le hle]
    simp
  | succ n ih =>
    have hlt : i < history.length := by omega
    rw [printHistoryLoop, dif_pos hlt, ih (i + 1) (by omega), List.drop_eq_getElem_cons hlt]
    simp only [List.enumFrom_cons, List.map_cons, List.append_assoc, List.singleton_append,
      List.get_eq_getElem]

theorem printHistory_eq (fmt : D → String) (c : Calculator D) (cout : List String) :
    c.printHistory fmt cout =
      cout ++ "Calculation History:" :: c.history.enum.map
        (fun p => "  " ++ toString (p.1 + 1) ++ ": " ++ fmt p.2) := by
  rw [printHistory, printHistoryLoop_eq fmt c.history c.history.length 0 (by simp)]
  simp [List.enum]

/-- C1: for all `a`, `b` and every calculator state, `add(a, b)` returns `a + b`,
`subtract(a, b)` returns `a - b` and `multiply(a, b)` returns `a * b`, and the value returned
is the same from any two states, whatever their histories. -/
theorem arith_returns [Add D] [Sub D] [Mul D] (c other : Calculator D) (a b : D) :
    ((c.add a b).1 = a + b ∧ (c.subtract a b).1 = a - b ∧ (c.multiply a b).1 = a * b) ∧
    ((c.add a b).1 = (other.add a b).1 ∧ (c.subtract a b).1 = (other.subtract a b).1 ∧
      (c.multiply a b).1 = (other.multiply a b).1) :=
  ⟨⟨rfl, rfl, rfl⟩, rfl, rfl, rfl⟩

/-- C2: one call of `add`, `subtract` or `multiply` on a calculator with history `h` leaves
the history equal to `h` followed by exactly one new element, the value the call returned;
`getHistorySize()` grows by exactly one; every earlier entry keeps its value and position. -/
theorem arith_appends_one [Add D] [Sub D] [Mul D] (c : Calculator D) (a b : D) :
    ((c.add a b).2.history = c.history ++ [(c.add a b).1] ∧
      (c.add a b).2.getHistorySize = c.getHistorySize + 1 ∧
      ∀ i : Fin c.history.length, (c.add a b).2.history[i.val]? = some (c.history.get i)) ∧
    ((c.subtract a b).2.history = c.history ++ [(c.subtract a b).1] ∧
      (c.subtract a b).2.getHistorySize = c.getHistorySize + 1 ∧
      ∀ i : Fin c.history.length,
        (c.subtract a b).2.history[i.val]? = some (c.history.get i)) ∧
    ((c.multiply a b).2.history = c.history ++ [(c.multiply a b).1] ∧
      (c.multiply a b).2.getHistorySize = c.getHistorySize + 1 ∧
      ∀ i : Fin c.history.length,
        (c.multiply a b).2.history[i.val]? = some (c.history.get i)) := by
  have keep : ∀ (r : D) (i : Fin c.history.length),
      (c.history ++ [r])[i.val]? = some (c.history.get i) := by
    intro r i
    rw [List.getElem?_append_left i.isLt, List.getElem?_eq_getElem i.isLt]
    rfl
  have grow : ∀ r : D, (c.history ++ [r]).length = c.history.length + 1 := by
    intro r
    simp
  exact ⟨⟨rfl, grow _, keep _⟩, ⟨rfl, grow _, keep _⟩, ⟨rfl, grow _, keep _⟩⟩

/-- C3: whenever the divisor compares equal to zero, `divide(a, b)` fails with
`InvalidArgument` and hands back the calculator unchanged: the history, and with it
`getHistorySize()`, is what it was before the call. -/
theorem divide_by_zero [Div D] [BEq D] [OfNat D 0] (c : Calculator D) (a b : D)
    (hb : (b == 0) = true) :
    (c.divide a b).1 = Except.error CalcError.InvalidArgument ∧
    (c.divide a b).2 = c ∧
    (c.divide a b).2.history = c.history ∧
    (c.divide a b).2.getHistorySize = c.getHistorySize := by
  simp [divide, hb]

/-- C4: after `clearHistory()` the size is 0; clearing twice gives the same state as clearing
once; clearing a calculator whose history is already empty changes nothing. -/
theorem clearHistory_idempotent (c : Calculator D) :
    c.clearHistory.getHistorySize = 0 ∧
    c.clearHistory.clearHistory = c.clearHistory ∧
    (new : Calculator D).clearHistory = new ∧
    (⟨[]⟩ : Calculator D).clearHistory = ⟨[]⟩ :=
  ⟨rfl, rfl, rfl, rfl⟩

/-- C6: after any finite sequence of `add`/`subtract`/`multiply` calls on a newly created
calculator the history is exactly the list of the values the calls returned, in call order;
that list has one entry per call (equal results stay separate entries), the entry of each call
being the value its arguments give. -/
theorem history_is_returned_values [Add D] [Sub D] [Mul D] (ops : List (Op D)) :
    ((new : Calculator D).run ops).2.history = ((new : Calculator D).run ops).1 ∧
    ((new : Calculator D).run ops).2.history.length = ops.length ∧
    ((new : Calculator D).run ops).2.history = ops.map Op.value := by
  have h := run_history ops (new : Calculator D)
  have hv := run_values ops (new : Calculator D)
  simp only [new, List.nil_append] at h hv ⊢
  refine ⟨h, ?_, ?_⟩
  · rw [h, hv, List.length_map]
  · rw [h, hv]

/-- C7: `getHistorySize()` is the length of the history in every state; it is 0 for a newly
created calculator and `n` after any `n` calls of `add`/`subtract`/`multiply` on one. -/
theorem getHistorySize_eq_length [Add D] [Sub D] [Mul D] (c : Calculator D)
    (ops : List (Op D)) :
    c.getHistorySize = c.history.length ∧
    (new : Calculator D).getHistorySize = 0 ∧
    ((new : Calculator D).run ops).2.getHistorySize = ops.length ∧
    (c.run ops).2.getHistorySize = c.getHistorySize + ops.length := by
  refine ⟨rfl, rfl, ?_, ?_⟩
  · simp [getHistorySize, run_history, run_values, new]
  · simp [getHistorySize, run_history, run_values]

/-- C9: for a history of length `n`, `printHistory()` writes, after what was on the stream,
the header line `Calculation History:` and then exactly `n` entry lines; the `k`-th of them
(`k = 1..n`) is two blanks, the number `k`, a colon and a blank, and the `k`-th element of the
history. -/
theorem printHistory_lines (fmt : D → String) (c : Calculator D) (cout : List String) :
    (c.printHistory fmt cout).take cout.length = cout ∧
    (c.printHistory fmt cout).length = cout.length + 1 + c.history.length ∧
    (c.printHistory fmt cout)[cout.length]? = some "Calculation History:" ∧
    ∀ i : Fin c.history.length,
      (c.printHistory fmt cout)[cout.length + 1 + i.val]? =
        some ("  " ++ toString (i.val + 1) ++ ": " ++ fmt (c.history.get i)) := by
  rw [printHistory_eq]
  refine ⟨by simp, by simp; omega, ?_, ?_⟩
  · rw [List.getElem?_append_right (le_refl _)]
    simp
  intro i
  have hi := i.isLt
  rw [List.getElem?_append_right (by omega)]
  have : cout.length + 1 + i.val - cout.length = i.val + 1 := by omega
  rw [this, List.getElem?_cons_succ, List.getElem?_map, List.enum, List.getElem?_enumFrom]
  simp [List.getElem?_eq_getElem hi]

theorem calls_eq_run [Add D] [Sub D] [Mul D] (fmt : D → String) (ks : List (Call D))
    (c : Calculator D) :
    (c.calls fmt ks).2 = (c.run (Call.arithOps ks)).2 ∧
    Output.values (c.calls fmt ks).1 = (c.run (Call.arithOps ks)).1 := by
  induction ks generalizing c with
  | nil => exact ⟨rfl, rfl⟩
  | cons k ks ih =>
    cases k with
    | arith op =>
      simp only [calls, call, Call.arithOps, run, Output.values]
      exact ⟨(ih _).1, by rw [(ih _).2]⟩
    | printHistory =>
      simp only [calls, call, Call.arithOps, Output.values]
      exact ih c
    | getHistorySize =>
      simp only [calls, call, Call.arithOps, Output.values]
      exact ih c

/-- C10: `getHistorySize()` and `printHistory()` hand the calculator back unchanged, so its
history after either call is the history before it; and in any sequence of calls, the final
state, the values the arithmetic calls return and the final size are those of the same
sequence with the observer calls left out. -/
theorem observers_do_not_modify [Add D] [Sub D] [Mul D] (fmt : D → String)
    (c : Calculator D) (ks : List (Call D)) :
    ((c.call fmt Call.getHistorySize).2 = c ∧ (c.call fmt Call.printHistory).2 = c) ∧
    ((c.call fmt Call.getHistorySize).2.history = c.history ∧
      (c.call fmt Call.printHistory).2.history = c.history) ∧
    (c.calls fmt ks).2 = (c.run (Call.arithOps ks)).2 ∧
    Output.values (c.calls fmt ks).1 = (c.run (Call.arithOps ks)).1 ∧
    (c.calls fmt ks).2.getHistorySize = (c.run (Call.arithOps ks)).2.getHistorySize := by
  refine ⟨⟨rfl, rfl⟩, ⟨rfl, rfl⟩, (calls_eq_run fmt ks c).1, (calls_eq_run fmt ks c).2, ?_⟩
  rw [(calls_eq_run fmt ks c).1]

end Calculator

namespace MathUtils

theorem trialDivision_iff (n m d : Nat) (hm : n + 1 - d * d = m) :
    trialDivision n d = true ↔ ∀ k, d ≤ k → k * k ≤ n → ¬ k ∣ n := by
  induction m using Nat.strong_induction_on generalizing d with
  | _ m ih =>
    rw [trialDivision.eq_1]
    by_cases hd : d * d ≤ n
    · rw [if_pos hd]
      by_cases hmod : n % d = 0
      · rw [if_pos hmod]
        simp only [Bool.false_eq_true, false_iff, not_forall]
        exact ⟨d, le_refl d, hd, not_not.mpr (Nat.dvd_of_mod_eq_zero hmod)⟩
      · have hsq : (d + 1) * (d + 1) = d * d + 2 * d + 1 := by ring
        have hlt : n + 1 - (d + 1) * (d + 1) < m := by omega
        rw [if_neg hmod, ih (n + 1 - (d + 1) * (d + 1)) hlt (d + 1) rfl]
        constructor
        · intro h k hk hkn
          rcases Nat.eq_or_lt_of_le hk with rfl | hlt
          · intro hdvd
            exact hmod (Nat.mod_eq_zero_of_dvd hdvd)
          · exact h k hlt hkn
        · intro h k hk hkn
          exact h k (by omega) hkn
    · rw [if_neg hd]
      simp only [true_iff]
      intro k hk hkn
      exfalso
      apply hd
      calc d * d ≤ k * k := Nat.mul_le_mul hk hk
        _ ≤ n := hkn

theorem isPrime_iff_nat (n : Int) :
    isPrime n = true ↔ 2 ≤ n ∧ ∀ k : Nat, 2 ≤ k → k * k ≤ n.toNat → ¬ k ∣ n.toNat := by
  unfold isPrime
  by_cases h : n < 2
  · simp [h]
  · rw [if_neg h, trialDivision_iff n.toNat _ 2 rfl]
    simp only [not_lt] at h
    simp [h]

/-- C8: for every integer `n`, `isPrime(n)` is false when `n < 2`; it is true exactly when
`n >= 2` and no integer `d` with `2 <= d` and `d * d <= n` divides `n`, which is exactly when
`n` is a prime number; `isPrime(17)` is true, `isPrime(1)` is false, `isPrime(2)` is true. -/
theorem isPrime_spec (n : Int) :
    (n < 2 → isPrime n = false) ∧
    (isPrime n = true ↔ 2 ≤ n ∧ ¬ ∃ d : Int, 2 ≤ d ∧ d * d ≤ n ∧ d ∣ n) ∧
    (isPrime n = true ↔ Nat.Prime n.toNat) ∧
    isPrime 17 = true ∧ isPrime 1 = false ∧ isPrime 2 = true := by
  refine ⟨?_, ?_, ?_, ?_, ?_, ?_⟩
  · intro h
    simp [isPrime, h]
  · rw [isPrime_iff_nat]
    constructor
    · rintro ⟨h2, h⟩
      refine ⟨h2, ?_⟩
      rintro ⟨d, hd2, hdd, hdvd⟩
      have hd0 : 0 ≤ d := by omega
      have hn0 : 0 ≤ n := by omega
      apply h d.toNat
      · omega
      · zify
        rw [Int.toNat_of_nonneg hd0, Int.toNat_of_nonneg hn0]
        exact hdd
      · rw [← Int.natCast_dvd_natCast, Int.toNat_of_nonneg hd0, Int.toNat_of_nonneg hn0]
        exact hdvd
    · rintro ⟨h2, h⟩
      refine ⟨h2, ?_⟩
      intro k hk hkk hdvd
      have hn0 : 0 ≤ n := by omega
      apply h
      refine ⟨(k : Int), by exact_mod_cast hk, ?_, ?_⟩
      · have hc := Int.ofNat_le.mpr hkk
        rw [Int.toNat_of_nonneg hn0] at hc
        exact_mod_cast hc
      · have hc := Int.natCast_dvd_natCast.mpr hdvd
        rw [Int.toNat_of_nonneg hn0] at hc
        exact hc
  · rw [isPrime_iff_nat, Nat.prime_def_le_sqrt]
    constructor
    · rintro ⟨h2, h⟩
      refine ⟨by omega, ?_⟩
      intro m hm hms
      exact h m hm (Nat.le_sqrt.mp hms)
    · rintro ⟨h2, h⟩
      refine ⟨by omega, ?_⟩
      intro k hk hkk
      exact h k hk (Nat.le_sqrt.mpr hkk)
  · simp [isPrime, trialDivision]
  · simp [isPrime, trialDivision]
  · simp [isPrime, trialDivision]

end MathUtils

/-- Binary64 behaviour the model reproduces: `0.1 + 0.2` is `0.30000000000000004` and not
`0.3`; `1.0 / 3.0` is `0.3333333333333333`; `0.0 / 0.0` is not a number; `-0.0 == 0.0`. -/
theorem F64.known_values :
    (0.1 + 0.2 : F64) = 0.30000000000000004 ∧ (0.1 + 0.2 : F64) ≠ 0.3 ∧
    (1.0 / 3.0 : F64) = 0.3333333333333333 ∧
    (0.0 / 0.0 : F64) = F64.nan ∧
    (F64.negate 0.0 == (0.0 : F64)) = true := by
  refine ⟨by decide, by decide, by decide, by decide, by decide⟩

/-- C3, at a concrete input: the call `calc.divide(10.0, 0.0)` of `src/src/main.cpp`, made on
a calculator holding one earlier result, fails and leaves that calculator as it was. -/
theorem divide_by_zero_witness :
    ((0.0 : F64) == 0) = true ∧
    ((⟨[7.0]⟩ : Calculator F64).divide 10.0 0.0).1 = Except.error CalcError.InvalidArgument ∧
    ((⟨[7.0]⟩ : Calculator F64).divide 10.0 0.0).2 = ⟨[7.0]⟩ ∧
    ((⟨[7.0]⟩ : Calculator F64).divide 10.0 0.0).2.history = [7.0] ∧
    ((⟨[7.0]⟩ : Calculator F64).divide 10.0 0.0).2.getHistorySize =
      (⟨[7.0]⟩ : Calculator F64).getHistorySize :=
  ⟨by decide, Calculator.divide_by_zero ⟨[7.0]⟩ 10.0 0.0 (by decide)⟩

set_option maxRecDepth 2048 in
/-- C5: on a newly created calculator, `add(15.5, 24.3)`, `multiply(7.0, 8.0)`,
`subtract(100.0, 25.5)` return the binary64 values `5601352036542054 * 2^-47`,
`7881299347898368 * 2^-47` and `5242471441235968 * 2^-46` and leave exactly these three as the
history, of size 3; `divide(84.0, 12.0)` after them succeeds with `7881299347898368 * 2^-50`
and leaves the four values as the history, of size 4.  The second, third and fourth value are
exactly 56, 74.5 and 7; the first is within half a unit in the last place (`2^-48`) of 39.8,
so it is the binary64 value the decimal 39.8 denotes; the literals `39.8`, `56.0`, `74.5`,
`7.0` read as these four values; and the arguments of the calls are the binary64 values
named last, all exact but 24.3, which is within half a unit in the last place (`2^-49`). -/
theorem main_history :
    (mainBasic.1 = (F64.fin false 5601352036542054 (-47), F64.fin false 7881299347898368 (-47),
        F64.fin false 5242471441235968 (-46)) ∧
      mainBasic.2.history = [F64.fin false 5601352036542054 (-47),
        F64.fin false 7881299347898368 (-47), F64.fin false 5242471441235968 (-46)] ∧
      mainBasic.2.getHistorySize = 3) ∧
    (mainAdvanced.1 = Except.ok (F64.fin false 7881299347898368 (-50)) ∧
      mainAdvanced.2.history = [F64.fin false 5601352036542054 (-47),
        F64.fin false 7881299347898368 (-47), F64.fin false 5242471441235968 (-46),
        F64.fin false 7881299347898368 (-50)] ∧
      mainAdvanced.2.getHistorySize = 4) ∧
    (|F64.toRat (F64.fin false 5601352036542054 (-47)) - 39.8| ≤ (2 : ℚ) ^ (-48 : ℤ) ∧
      F64.toRat (F64.fin false 7881299347898368 (-47)) = 56.0 ∧
      F64.toRat (F64.fin false 5242471441235968 (-46)) = 74.5 ∧
      F64.toRat (F64.fin false 7881299347898368 (-50)) = 7.0) ∧
    ((39.8 : F64) = F64.fin false 5601352036542054 (-47) ∧
      (56.0 : F64) = F64.fin false 7881299347898368 (-47) ∧
      (74.5 : F64) = F64.fin false 5242471441235968 (-46) ∧
      (7.0 : F64) = F64.fin false 7881299347898368 (-50)) ∧
    ((15.5 : F64) = F64.fin false 8725724278030336 (-49) ∧
      (24.3 : F64) = F64.fin false 6839841934068941 (-48) ∧
      (8.0 : F64) = F64.fin false 4503599627370496 (-49) ∧
      (100.0 : F64) = F64.fin false 7036874417766400 (-46) ∧
      (25.5 : F64) = F64.fin false 7177611906121728 (-48) ∧
      (84.0 : F64) = F64.fin false 5910974510923776 (-46) ∧
      (12.0 : F64) = F64.fin false 6755399441055744 (-49) ∧
      |F64.toRat (F64.fin false 6839841934068941 (-48)) - 24.3| ≤ (2 : ℚ) ^ (-49 : ℤ)) := by
  refine ⟨⟨by decide, by decide, by decide⟩, ⟨rfl, by decide, by decide⟩, ⟨?_, ?_, ?_, ?_⟩,
    ⟨by decide, by decide, by decide, by decide⟩,
    ⟨by decide, by decide, by decide, by decide, by decide, by decide, by decide, ?_⟩⟩
  · rw [abs_le]
    constructor <;> norm_num [F64.toRat]
  · norm_num [F64.toRat]
  · norm_num [F64.toRat]
  · norm_num [F64.toRat]
  · rw [abs_le]
    constructor <;> norm_num [F64.toRat]

end DemoCI
